import Mathlib

/-!
Verification of the magibreak puzzle engine
(`src/crates/magibreak/src/puzzle.rs`).

The Rust code is shallowly embedded: `SigilCoordinate = Vector2<i32>`
becomes a structure of two `Int`s, the `HashMap<SigilCoordinate, Sigil>`
becomes a function `Coord → Option Sigil` (at most one rune per
coordinate), `Vec<Line>` becomes `List Line`, and the in-place mutator
`Puzzle::input(&mut self) -> bool` becomes a pure function
`Puzzle.input : Puzzle → Coord → Puzzle × Bool` returning the new state
and the boolean result.
-/

namespace Magibreak

/-- `SigilCoordinate = Vector2<i32>`: a 2D integer lattice point. -/
@[ext]
structure Coord where
  x : Int
  y : Int
deriving DecidableEq, Repr

/-- `enum Orb { Circle, Diamond, Octogon }` from puzzle.rs. -/
inductive Orb where
  | Circle
  | Diamond
  | Octogon
deriving DecidableEq, Repr

/-- `enum Rune { Alpha, Sigma, Delta, Phi }` from puzzle.rs. -/
inductive Rune where
  | Alpha
  | Sigma
  | Delta
  | Phi
deriving DecidableEq, Repr

/-- `struct Sigil { rune: Rune, orb: Orb }` from puzzle.rs. -/
structure Sigil where
  rune : Rune
  orb : Orb
deriving DecidableEq, Repr

/-- `struct Line { start, end: SigilCoordinate }`; the Rust field `end`
is a Lean keyword, so it is called `endp` here. -/
@[ext]
structure Line where
  start : Coord
  endp : Coord
deriving DecidableEq, Repr

/-- `enum Orientation { Collinear, Clockwise, CounterClockwise }`. -/
inductive Orientation where
  | Collinear
  | Clockwise
  | CounterClockwise
deriving DecidableEq, Repr

/-- `fn orientation(a, b, c) -> Orientation`: the sign of
`(b.y-a.y)*(c.x-b.x) - (b.x-a.x)*(c.y-b.y)`. -/
def orientation (a b c : Coord) : Orientation :=
  if (b.y - a.y) * (c.x - b.x) - (b.x - a.x) * (c.y - b.y) = 0 then Orientation.Collinear
  else if (b.y - a.y) * (c.x - b.x) - (b.x - a.x) * (c.y - b.y) > 0 then Orientation.Clockwise
  else Orientation.CounterClockwise

/-- The helper `fn on_segment(a, b, c)` nested in `Line::intersects`:
`b` lies in the bounding box of `a` and `c`. -/
def on_segment (a b c : Coord) : Bool :=
  decide (b.x ≤ max a.x c.x) && decide (b.x ≥ min a.x c.x) &&
  decide (b.y ≤ max a.y c.y) && decide (b.y ≥ min a.y c.y)

/-- `Orb::allow_intersections`: `*self == Self::Diamond`. -/
def Orb.allow_intersections (o : Orb) : Bool :=
  o = Orb.Diamond

/-- `Orb::effect(coordinate, to, lines)`: only `Octogon` acts; it
rewrites the `end` of every line whose `end` equals `coordinate` to
the target `to` (called `tgt` here). -/
def Orb.effect (o : Orb) (coordinate tgt : Coord) (lines : List Line) : List Line :=
  if o ≠ Orb.Octogon then lines
  else lines.map fun line =>
    if line.endp = coordinate then { line with endp := tgt } else line

/-- `Line::intersects(other)`: orientation-based segment intersection
with the code's two early "detach by one point" rejections and two
collinear "extend in same direction" rejections, then the general case
and the four collinear special cases. -/
def Line.intersects (self other : Line) : Bool :=
  let o1 := orientation self.start self.endp other.start
  let o2 := orientation self.start self.endp other.endp
  let o3 := orientation other.start other.endp self.start
  let o4 := orientation other.start other.endp self.endp
  -- can detatch by one point
  if (o1 = Orientation.Collinear ∧ o2 ≠ Orientation.Collinear) ∨
     (o2 = Orientation.Collinear ∧ o1 ≠ Orientation.Collinear) then false
  else if (o3 = Orientation.Collinear ∧ o4 ≠ Orientation.Collinear) ∨
     (o4 = Orientation.Collinear ∧ o3 ≠ Orientation.Collinear) then false
  -- can extend in same direction
  else if o1 = Orientation.Collinear ∧ o2 = Orientation.Collinear ∧
     (min other.start.x other.endp.x ≥ max self.start.x self.endp.x ∨
      max other.start.x other.endp.x ≤ min self.start.x self.endp.x) ∧
     (min other.start.y other.endp.y ≥ max self.start.y self.endp.y ∨
      max other.start.y other.endp.y ≤ min self.start.y self.endp.y) then false
  else if o2 = Orientation.Collinear ∧ o3 = Orientation.Collinear ∧
     (min self.start.x self.endp.x ≥ max other.start.x other.endp.x ∨
      max self.start.x self.endp.x ≤ min other.start.x other.endp.x) ∧
     (min self.start.y self.endp.y ≥ max other.start.y other.endp.y ∨
      max self.start.y self.endp.y ≤ min other.start.y other.endp.y) then false
  -- general case
  else if o1 ≠ o2 ∧ o3 ≠ o4 then true
  -- special collinear-containment cases
  else if o1 = Orientation.Collinear ∧ on_segment self.start other.start self.endp then true
  else if o2 = Orientation.Collinear ∧ on_segment self.start other.endp self.endp then true
  else if o3 = Orientation.Collinear ∧ on_segment other.start self.start other.endp then true
  else if o4 = Orientation.Collinear ∧ on_segment other.start self.endp other.endp then true
  else false

/-- `Line::coordinates()`: every touching lattice point from `start` to
`end`; the displacement is reduced by the gcd of the absolute values of
its components and the line is walked in `gcd` steps. -/
def Line.coordinates (l : Line) : List Coord :=
  if l.endp = l.start then [l.start]
  else
    let sx := l.endp.x - l.start.x
    let sy := l.endp.y - l.start.y
    let g : Nat := Nat.gcd sx.natAbs sy.natAbs
    let stepx := sx / (g : Int)
    let stepy := sy / (g : Int)
    l.start :: (List.range g).map fun (i : Nat) =>
      { x := stepx * ((i : Int) + 1) + l.start.x
        y := stepy * ((i : Int) + 1) + l.start.y }

/-- `struct Puzzle { sigils, lines, cursor }`. -/
structure Puzzle where
  sigils : Coord → Option Sigil
  lines : List Line
  cursor : Coord

/-- `Puzzle::intersects_lines(line)`: some existing line intersects the
candidate (`other_line.intersects(line)` for each stored line). -/
def Puzzle.intersects_lines (p : Puzzle) (line : Line) : Bool :=
  p.lines.any fun other_line => other_line.intersects line

/-- `Puzzle::input(coordinate) -> bool`, the core state transition,
returned as (new state, boolean result). -/
def Puzzle.input (p : Puzzle) (coordinate : Coord) : Puzzle × Bool :=
  if coordinate = p.cursor then (p, false)
  else
    match p.sigils p.cursor with
    | none => (p, false)
    | some cursor_rune =>
      let line : Line := { start := p.cursor, endp := coordinate }
      if !cursor_rune.orb.allow_intersections && p.intersects_lines line then
        (p, false)
      else if (p.sigils coordinate).isSome then
        ({ sigils := p.sigils
           lines := cursor_rune.orb.effect p.cursor coordinate p.lines ++ [line]
           cursor := coordinate }, true)
      else (p, false)

/-- `struct ActivePuzzle { puzzle, history }`; the history `Vec` is a
stack, modelled with the most recent snapshot at the head. -/
structure ActivePuzzle where
  puzzle : Puzzle
  history : List Puzzle

/-- `ActivePuzzle::undo()`: pop the most recent snapshot if any. -/
def ActivePuzzle.undo (a : ActivePuzzle) : ActivePuzzle × Bool :=
  match a.history with
  | [] => (a, false)
  | past :: rest => ({ puzzle := past, history := rest }, true)

/-- `ActivePuzzle::input(coordinate)`: snapshot the puzzle, run
`Puzzle::input`, retain the snapshot only if the input changed state. -/
def ActivePuzzle.input (a : ActivePuzzle) (coordinate : Coord) : ActivePuzzle :=
  let past := a.puzzle
  let result := a.puzzle.input coordinate
  if result.2 then { puzzle := result.1, history := past :: a.history }
  else { puzzle := result.1, history := a.history }

/-! ### Concrete states used by counterexamples and witnesses -/

/-- A puzzle with a crossing line `(0,2)->(2,0)` in the way of the move
`(0,0)->(2,2)`, an Octogon rune at the cursor `(0,0)` and a plain rune
at the target `(2,2)`. -/
def octoBlockedPuzzle : Puzzle where
  sigils := fun c =>
    if c = ⟨0, 0⟩ then some ⟨Rune.Alpha, Orb.Octogon⟩
    else if c = ⟨2, 2⟩ then some ⟨Rune.Alpha, Orb.Circle⟩
    else none
  lines := [{ start := ⟨0, 2⟩, endp := ⟨2, 0⟩ }]
  cursor := ⟨0, 0⟩

/-- The same state as `octoBlockedPuzzle` but with a Diamond orb at the
cursor. -/
def diamondCrossPuzzle : Puzzle where
  sigils := fun c =>
    if c = ⟨0, 0⟩ then some ⟨Rune.Alpha, Orb.Diamond⟩
    else if c = ⟨2, 2⟩ then some ⟨Rune.Alpha, Orb.Circle⟩
    else none
  lines := [{ start := ⟨0, 2⟩, endp := ⟨2, 0⟩ }]
  cursor := ⟨0, 0⟩

/-- The redirect example of the spec: existing line `(0,0)->(1,0)`, an
Octogon rune at `(1,0)` (the cursor) and a rune at `(2,0)`. -/
def octoRedirectPuzzle : Puzzle where
  sigils := fun c =>
    if c = ⟨1, 0⟩ then some ⟨Rune.Alpha, Orb.Octogon⟩
    else if c = ⟨2, 0⟩ then some ⟨Rune.Alpha, Orb.Circle⟩
    else if c = ⟨0, 0⟩ then some ⟨Rune.Alpha, Orb.Circle⟩
    else none
  lines := [{ start := ⟨0, 0⟩, endp := ⟨1, 0⟩ }]
  cursor := ⟨1, 0⟩

/-- A minimal two-rune puzzle with no lines, cursor on a rune. -/
def demoPuzzle : Puzzle where
  sigils := fun c =>
    if c = ⟨0, 0⟩ then some ⟨Rune.Alpha, Orb.Circle⟩
    else if c = ⟨1, 0⟩ then some ⟨Rune.Alpha, Orb.Circle⟩
    else none
  lines := []
  cursor := ⟨0, 0⟩

/-- The mathematical description of the lattice points of the closed
segment of `l`: collinear with the endpoints (zero cross product, in
the orientation predicate's form) and inside the bounding box. -/
def latticePointOn (p : Coord) (l : Line) : Prop :=
  orientation l.start l.endp p = Orientation.Collinear ∧
  min l.start.x l.endp.x ≤ p.x ∧ p.x ≤ max l.start.x l.endp.x ∧
  min l.start.y l.endp.y ≤ p.y ∧ p.y ≤ max l.start.y l.endp.y

/-- The cursor invariant of the data model: the cursor equals the last
line's `end` whenever a line has been drawn. -/
def cursorInv (p : Puzzle) : Prop :=
  ∀ l, p.lines.getLast? = some l → p.cursor = l.endp

/-- A minimal interactive session for the undo witness. -/
def demoActive : ActivePuzzle where
  puzzle := demoPuzzle
  history := []

/-! ### Generic facts about `Puzzle.input` -/

/-- Whenever `Puzzle::input` returns false the puzzle is unchanged:
every rejection branch returns the state untouched. -/
theorem input_unchanged_of_false (p : Puzzle) (c : Coord) :
    (p.input c).2 = false → (p.input c).1 = p := by
  intro h
  by_cases h1 : c = p.cursor
  · simp [Puzzle.input, h1]
  · rcases h2 : p.sigils p.cursor with _ | r
    · simp [Puzzle.input, h1, h2]
    · by_cases h3 :
        (!r.orb.allow_intersections &&
          p.intersects_lines { start := p.cursor, endp := c }) = true
      · simp [Puzzle.input, h1, h2, h3]
      · by_cases h4 : (p.sigils c).isSome = true
        · simp [Puzzle.input, h1, h2, h3, h4] at h
        · simp [Puzzle.input, h1, h2, h3, h4]

/-- C3: whenever `Puzzle::input` returns false the puzzle is completely
unchanged (rune map, line list and cursor). -/
theorem input_false_preserves_state (p : Puzzle) (c : Coord) :
    (p.input c).2 = false → (p.input c).1 = p :=
  input_unchanged_of_false p c

/-- C3 witness: with a rune only at `(0,0)` (the cursor of
`demoPuzzle`), `input((5,5))` returns false and the state is
unchanged. -/
theorem input_false_preserves_state_witness :
    (demoPuzzle.input ⟨5, 5⟩).2 = false ∧ (demoPuzzle.input ⟨5, 5⟩).1 = demoPuzzle :=
  ⟨by decide, input_false_preserves_state demoPuzzle ⟨5, 5⟩ (by decide)⟩

/-- Full characterization of `Puzzle::input`: the boolean result and
the successor state. -/
theorem input_characterization (p : Puzzle) (c : Coord) :
    ((p.input c).2 = true ↔
      (c ≠ p.cursor ∧ ∃ r, p.sigils p.cursor = some r ∧
        (r.orb.allow_intersections = true ∨
          p.intersects_lines { start := p.cursor, endp := c } = false) ∧
        (p.sigils c).isSome = true)) ∧
    (∀ r, p.sigils p.cursor = some r → (p.input c).2 = true →
      (p.input c).1 =
        { sigils := p.sigils
          lines := r.orb.effect p.cursor c p.lines ++ [{ start := p.cursor, endp := c }]
          cursor := c }) := by
  by_cases h1 : c = p.cursor
  · constructor
    · simp [Puzzle.input, h1]
    · intro r _ htrue
      simp [Puzzle.input, h1] at htrue
  · rcases h2 : p.sigils p.cursor with _ | r
    · constructor
      · simp [Puzzle.input, h1, h2]
      · intro r hr
        exact absurd hr (by simp)
    · by_cases h3 :
        (!r.orb.allow_intersections &&
          p.intersects_lines { start := p.cursor, endp := c }) = true
      · have h3' : ¬(r.orb.allow_intersections = true ∨
            p.intersects_lines { start := p.cursor, endp := c } = false) := by
          simp only [Bool.and_eq_true, Bool.not_eq_true'] at h3
          simp [h3.1, h3.2]
        constructor
        · simp only [Puzzle.input, h1, if_neg h1, h2, h3, if_true]
          constructor
          · intro hfalse; simp at hfalse
          · rintro ⟨-, r', hr', hd, -⟩
            cases hr'
            exact absurd hd h3'
        · intro r' hr' htrue
          cases hr'
          simp [Puzzle.input, h1, h2, h3] at htrue
      · have h3' : r.orb.allow_intersections = true ∨
            p.intersects_lines { start := p.cursor, endp := c } = false := by
          simp only [Bool.and_eq_true, Bool.not_eq_true', not_and_or] at h3
          rcases h3 with h | h
          · left; simpa using h
          · right; simpa using h
        by_cases h4 : (p.sigils c).isSome = true
        · constructor
          · simp only [Puzzle.input, if_neg h1, h2, h3, h4]
            constructor
            · intro _; exact ⟨h1, r, rfl, h3', trivial⟩
            · intro _; rfl
          · intro r' hr' _
            cases hr'
            simp [Puzzle.input, h1, h2, h3, h4]
        · constructor
          · constructor
            · intro htrue
              simp [Puzzle.input, h1, h2, h3, h4] at htrue
            · rintro ⟨-, r', hr', -, hs⟩
              exact absurd hs h4
          · intro r' hr' htrue
            simp [Puzzle.input, h1, h2, h3, h4] at htrue

/-- C2: `Puzzle::input(coordinate)` returns true iff the coordinate
differs from the cursor, a rune exists at the cursor, the cursor orb
allows intersections or the candidate line crosses nothing, and a rune
exists at the coordinate; on success the orb side effect is applied,
the candidate line is appended and the cursor moves. -/
theorem input_spec (p : Puzzle) (c : Coord) :
    ((p.input c).2 = true ↔
      (c ≠ p.cursor ∧ ∃ r, p.sigils p.cursor = some r ∧
        (r.orb.allow_intersections = true ∨
          p.intersects_lines { start := p.cursor, endp := c } = false) ∧
        (p.sigils c).isSome = true)) ∧
    (∀ r, p.sigils p.cursor = some r → (p.input c).2 = true →
      (p.input c).1 =
        { sigils := p.sigils
          lines := r.orb.effect p.cursor c p.lines ++ [{ start := p.cursor, endp := c }]
          cursor := c }) :=
  input_characterization p c

/-- C2 witness: on `demoPuzzle` (runes at `(0,0)` and `(1,0)`, cursor
`(0,0)`, no lines) the move to `(1,0)` succeeds, appends the line and
moves the cursor. -/
theorem input_spec_witness :
    (demoPuzzle.input ⟨1, 0⟩).2 = true ∧
    (demoPuzzle.input ⟨1, 0⟩).1.lines = [{ start := ⟨0, 0⟩, endp := ⟨1, 0⟩ }] ∧
    (demoPuzzle.input ⟨1, 0⟩).1.cursor = ⟨1, 0⟩ := by
  have h := (input_spec demoPuzzle ⟨1, 0⟩).1.mpr
    ⟨by decide, ⟨Rune.Alpha, Orb.Circle⟩, rfl, Or.inr (by decide), rfl⟩
  have h2 := (input_spec demoPuzzle ⟨1, 0⟩).2 ⟨Rune.Alpha, Orb.Circle⟩ rfl h
  exact ⟨h, by rw [h2]; decide, by rw [h2]⟩

/-- C1 counterexample: in `octoBlockedPuzzle` the rune at the cursor has
an Octogon orb, the target `(2,2)` holds a rune and differs from the
cursor, and the candidate line crosses the existing line — yet `input`
returns false, so an Octogon orb does reject a move because of an
intersection (with a Diamond orb the same move succeeds). -/
theorem octogon_blocks_intersections_cx :
    octoBlockedPuzzle.sigils octoBlockedPuzzle.cursor =
      some { rune := Rune.Alpha, orb := Orb.Octogon } ∧
    (⟨2, 2⟩ : Coord) ≠ octoBlockedPuzzle.cursor ∧
    (octoBlockedPuzzle.sigils ⟨2, 2⟩).isSome = true ∧
    octoBlockedPuzzle.intersects_lines
      { start := octoBlockedPuzzle.cursor, endp := ⟨2, 2⟩ } = true ∧
    (octoBlockedPuzzle.input ⟨2, 2⟩).2 = false ∧
    (diamondCrossPuzzle.input ⟨2, 2⟩).2 = true := by decide

/-- C1 (amended): only the Diamond orb is non-blocking. When the cursor
rune's orb is Diamond, `input` never rejects because of intersections
(it succeeds whenever the target differs from the cursor and holds a
rune); when the cursor rune's orb is Circle or Octogon and the
candidate line intersects an existing line, `input` rejects. -/
theorem only_diamond_allows_intersections :
    (∀ (p : Puzzle) (c : Coord) (r : Sigil), c ≠ p.cursor →
      p.sigils p.cursor = some r → r.orb = Orb.Diamond →
      (p.sigils c).isSome = true → (p.input c).2 = true) ∧
    (∀ (p : Puzzle) (c : Coord) (r : Sigil),
      p.sigils p.cursor = some r → (r.orb = Orb.Circle ∨ r.orb = Orb.Octogon) →
      p.intersects_lines { start := p.cursor, endp := c } = true →
      (p.input c).2 = false) := by
  constructor
  · intro p c r h1 h2 horb h4
    exact (input_characterization p c).1.mpr
      ⟨h1, r, h2, Or.inl (by simp [Orb.allow_intersections, horb]), h4⟩
  · intro p c r h2 horb hint
    cases hres : (p.input c).2
    · rfl
    · exfalso
      obtain ⟨-, r', hr', hd, -⟩ := (input_characterization p c).1.mp hres
      rw [h2] at hr'
      cases hr'
      rcases hd with hd | hd
      · rcases horb with h | h <;> simp [Orb.allow_intersections, h] at hd
      · rw [hint] at hd
        exact absurd hd (by simp)

/-- C1 witness: in `diamondCrossPuzzle` the candidate line `(0,0)->(2,2)`
crosses the existing line, yet the Diamond move succeeds. -/
theorem only_diamond_allows_intersections_witness :
    (diamondCrossPuzzle.input ⟨2, 2⟩).2 = true ∧
    diamondCrossPuzzle.intersects_lines
      { start := diamondCrossPuzzle.cursor, endp := ⟨2, 2⟩ } = true :=
  ⟨only_diamond_allows_intersections.1 diamondCrossPuzzle ⟨2, 2⟩
      { rune := Rune.Alpha, orb := Orb.Diamond } (by decide) rfl rfl rfl,
    by decide⟩

/-- C4: on a successful `input`, an Octogon orb at the cursor rewrites
the `end` of every line previously ending at the old cursor to the new
target (starts untouched) and the candidate line is appended; with a
Circle or Diamond orb no existing line is modified. The concrete
redirect example of the spec is included. -/
theorem octogon_redirect_spec :
    (∀ (p : Puzzle) (c : Coord) (r : Sigil), p.sigils p.cursor = some r →
      (p.input c).2 = true →
      ((r.orb = Orb.Octogon →
        (p.input c).1.lines =
          (p.lines.map fun l => if l.endp = p.cursor then { l with endp := c } else l) ++
            [{ start := p.cursor, endp := c }]) ∧
       ((r.orb = Orb.Circle ∨ r.orb = Orb.Diamond) →
        (p.input c).1.lines = p.lines ++ [{ start := p.cursor, endp := c }]))) ∧
    ((octoRedirectPuzzle.input ⟨2, 0⟩).2 = true ∧
     (octoRedirectPuzzle.input ⟨2, 0⟩).1.lines =
       [{ start := ⟨0, 0⟩, endp := ⟨2, 0⟩ }, { start := ⟨1, 0⟩, endp := ⟨2, 0⟩ }]) := by
  constructor
  · intro p c r hr htrue
    have heq := (input_characterization p c).2 r hr htrue
    rw [heq]
    constructor
    · intro hoct
      simp [Orb.effect, hoct]
    · intro hco
      rcases hco with h | h <;> simp [Orb.effect, h]
  · exact ⟨by decide, by decide⟩

/-- C4 witness: the general redirect description applied to the concrete
redirect example. -/
theorem octogon_redirect_spec_witness :
    (octoRedirectPuzzle.input ⟨2, 0⟩).1.lines =
      (octoRedirectPuzzle.lines.map fun l =>
        if l.endp = octoRedirectPuzzle.cursor then { l with endp := ⟨2, 0⟩ } else l) ++
        [{ start := octoRedirectPuzzle.cursor, endp := ⟨2, 0⟩ }] :=
  (octogon_redirect_spec.1 octoRedirectPuzzle ⟨2, 0⟩
    { rune := Rune.Alpha, orb := Orb.Octogon } rfl (by decide)).1 rfl

/-- C5: after a state-changing `ActivePuzzle::input`, `undo()` returns
true and restores exactly the pre-move state; a rejected `input` pushes
nothing onto history; `undo()` on an empty history returns false and
changes nothing. -/
theorem undo_spec :
    (∀ (a : ActivePuzzle) (c : Coord), (a.puzzle.input c).2 = true →
      (a.input c).undo = (a, true)) ∧
    (∀ (a : ActivePuzzle) (c : Coord), (a.puzzle.input c).2 = false →
      (a.input c).history = a.history) ∧
    (∀ a : ActivePuzzle, a.history = [] → a.undo = (a, false)) := by
  refine ⟨?_, ?_, ?_⟩
  · intro a c h
    cases a with
    | mk puz hist => simp [ActivePuzzle.input, ActivePuzzle.undo, h]
  · intro a c h
    simp [ActivePuzzle.input, h]
  · intro a h
    cases a with
    | mk puz hist =>
      simp only at h
      subst h
      rfl

/-- C5 witness: one successful move on `demoActive` then `undo` restores
the session exactly; `undo` on the fresh empty-history session returns
false and changes nothing. -/
theorem undo_spec_witness :
    ((demoActive.input ⟨1, 0⟩).undo = (demoActive, true)) ∧
    (demoActive.undo = (demoActive, false)) :=
  ⟨undo_spec.1 demoActive ⟨1, 0⟩ (by decide), undo_spec.2.2 demoActive rfl⟩

/-! ### Orientation and intersection helper lemmas -/

theorem orientation_third_eq_snd (a b : Coord) :
    orientation a b b = Orientation.Collinear := by
  unfold orientation
  rw [if_pos (by ring)]

theorem orientation_third_eq_fst (a b : Coord) :
    orientation a b a = Orientation.Collinear := by
  unfold orientation
  rw [if_pos (by ring)]

/-- A segment always intersects its own reversal (the special
collinear-containment cases fire), provided it is non-degenerate. -/
theorem intersects_reverse (a b : Coord) (h : a ≠ b) :
    Line.intersects { start := a, endp := b } { start := b, endp := a } = true := by
  have hne : ¬(a.x = b.x ∧ a.y = b.y) := by
    intro hc
    exact h (Coord.ext hc.1 hc.2)
  have hseg : on_segment a b b = true := by
    simp [on_segment]
  simp only [Line.intersects, orientation_third_eq_snd, orientation_third_eq_fst]
  split_ifs with h1 h2 h3 h4 h5 h6 h7 h8 <;> try rfl
  · simp at h1
  · exact absurd (And.intro (by omega) (by omega)) hne
  · exact absurd (And.intro (by omega) (by omega)) hne
  · exact absurd (And.intro trivial hseg) h5

/-- C6 counterexample: the segments `(0,0)-(2,0)` and `(0,0)-(1,0)`
share exactly one endpoint (`(0,0)`; the other three endpoint pairs
differ), yet `Line::intersects` returns true, because they are
collinear and properly overlap. -/
theorem shared_endpoint_intersects_cx :
    (Line.mk ⟨0, 0⟩ ⟨2, 0⟩).start = (Line.mk ⟨0, 0⟩ ⟨1, 0⟩).start ∧
    (Line.mk ⟨0, 0⟩ ⟨2, 0⟩).endp ≠ (Line.mk ⟨0, 0⟩ ⟨1, 0⟩).endp ∧
    (Line.mk ⟨0, 0⟩ ⟨2, 0⟩).endp ≠ (Line.mk ⟨0, 0⟩ ⟨1, 0⟩).start ∧
    (Line.mk ⟨0, 0⟩ ⟨2, 0⟩).start ≠ (Line.mk ⟨0, 0⟩ ⟨1, 0⟩).endp ∧
    Line.intersects (Line.mk ⟨0, 0⟩ ⟨2, 0⟩) (Line.mk ⟨0, 0⟩ ⟨1, 0⟩) = true := by
  decide

/-- If one of two orientations is collinear but the "detach by one
point" condition on them is false, both are collinear. -/
theorem pair_collinear (p q : Orientation)
    (h : p = Orientation.Collinear ∨ q = Orientation.Collinear)
    (hn : ¬((p = Orientation.Collinear ∧ q ≠ Orientation.Collinear) ∨
            (q = Orientation.Collinear ∧ p ≠ Orientation.Collinear))) :
    p = Orientation.Collinear ∧ q = Orientation.Collinear := by
  rcases h with h | h
  · by_cases h2 : q = Orientation.Collinear
    · exact ⟨h, h2⟩
    · exact absurd (Or.inl ⟨h, h2⟩) hn
  · by_cases h2 : p = Orientation.Collinear
    · exact ⟨h2, h⟩
    · exact absurd (Or.inr ⟨h, h2⟩) hn

/-- Segments sharing an endpoint do not intersect unless all four
orientation triples are collinear. -/
theorem intersects_shared_endpoint (l1 l2 : Line)
    (hsh : l1.start = l2.start ∨ l1.start = l2.endp ∨
       l1.endp = l2.start ∨ l1.endp = l2.endp)
    (hnall : ¬(orientation l1.start l1.endp l2.start = Orientation.Collinear ∧
        orientation l1.start l1.endp l2.endp = Orientation.Collinear ∧
        orientation l2.start l2.endp l1.start = Orientation.Collinear ∧
        orientation l2.start l2.endp l1.endp = Orientation.Collinear)) :
    l1.intersects l2 = false := by
  have horiA : orientation l1.start l1.endp l2.start = Orientation.Collinear ∨
      orientation l1.start l1.endp l2.endp = Orientation.Collinear := by
    rcases hsh with h | h | h | h
    · left; rw [← h]; exact orientation_third_eq_fst _ _
    · right; rw [← h]; exact orientation_third_eq_fst _ _
    · left; rw [← h]; exact orientation_third_eq_snd _ _
    · right; rw [← h]; exact orientation_third_eq_snd _ _
  have horiB : orientation l2.start l2.endp l1.start = Orientation.Collinear ∨
      orientation l2.start l2.endp l1.endp = Orientation.Collinear := by
    rcases hsh with h | h | h | h
    · left; rw [h]; exact orientation_third_eq_fst _ _
    · left; rw [h]; exact orientation_third_eq_snd _ _
    · right; rw [h]; exact orientation_third_eq_fst _ _
    · right; rw [h]; exact orientation_third_eq_snd _ _
  simp only [Line.intersects]
  split_ifs with h1 h2 h3 h4 h5 h6 h7 h8 h9 <;> try rfl
  all_goals
    obtain ⟨hA1, hA2⟩ := pair_collinear _ _ horiA h1
  all_goals
    obtain ⟨hB1, hB2⟩ := pair_collinear _ _ horiB h2
  all_goals exact absurd ⟨hA1, hA2, hB1, hB2⟩ hnall

/-- Collinear segments whose axis projections overlap in at most a
point do not intersect. -/
theorem intersects_collinear_separated (l1 l2 : Line)
    (ho1 : orientation l1.start l1.endp l2.start = Orientation.Collinear)
    (ho2 : orientation l1.start l1.endp l2.endp = Orientation.Collinear)
    (hx : min l2.start.x l2.endp.x ≥ max l1.start.x l1.endp.x ∨
       max l2.start.x l2.endp.x ≤ min l1.start.x l1.endp.x)
    (hy : min l2.start.y l2.endp.y ≥ max l1.start.y l1.endp.y ∨
       max l2.start.y l2.endp.y ≤ min l1.start.y l1.endp.y) :
    l1.intersects l2 = false := by
  simp only [Line.intersects]
  split_ifs with h1 h2 h3 h4 h5 h6 h7 h8 h9 <;> try rfl
  all_goals exact absurd ⟨ho1, ho2, hx, hy⟩ h3

/-- C6 (amended): segments sharing an endpoint are not considered
intersecting unless all four orientation triples are collinear (the
collinear proper-overlap situation of the counterexample); collinear
segments whose axis projections overlap in at most a point are not
considered intersecting; the general crossing `(0,0)-(2,2)` against
`(0,2)-(2,0)` intersects. -/
theorem intersects_policy_amended :
    (∀ l1 l2 : Line,
      (l1.start = l2.start ∨ l1.start = l2.endp ∨
       l1.endp = l2.start ∨ l1.endp = l2.endp) →
      ¬(orientation l1.start l1.endp l2.start = Orientation.Collinear ∧
        orientation l1.start l1.endp l2.endp = Orientation.Collinear ∧
        orientation l2.start l2.endp l1.start = Orientation.Collinear ∧
        orientation l2.start l2.endp l1.endp = Orientation.Collinear) →
      l1.intersects l2 = false) ∧
    (∀ l1 l2 : Line,
      orientation l1.start l1.endp l2.start = Orientation.Collinear →
      orientation l1.start l1.endp l2.endp = Orientation.Collinear →
      (min l2.start.x l2.endp.x ≥ max l1.start.x l1.endp.x ∨
       max l2.start.x l2.endp.x ≤ min l1.start.x l1.endp.x) →
      (min l2.start.y l2.endp.y ≥ max l1.start.y l1.endp.y ∨
       max l2.start.y l2.endp.y ≤ min l1.start.y l1.endp.y) →
      l1.intersects l2 = false) ∧
    Line.intersects (Line.mk ⟨0, 0⟩ ⟨2, 2⟩) (Line.mk ⟨0, 2⟩ ⟨2, 0⟩) = true :=
  ⟨intersects_shared_endpoint, intersects_collinear_separated, by decide⟩

/-- C6 witness: the shared-endpoint exemption on the chain
`(0,0)-(2,2)`, `(2,2)-(4,0)` and the collinear end-to-end extension
exemption on `(0,0)-(2,0)`, `(2,0)-(4,0)`. -/
theorem intersects_policy_amended_witness :
    Line.intersects (Line.mk ⟨0, 0⟩ ⟨2, 2⟩) (Line.mk ⟨2, 2⟩ ⟨4, 0⟩) = false ∧
    Line.intersects (Line.mk ⟨0, 0⟩ ⟨2, 0⟩) (Line.mk ⟨2, 0⟩ ⟨4, 0⟩) = false :=
  ⟨intersects_policy_amended.1 _ _ (by decide) (by decide),
   intersects_policy_amended.2.1 _ _ (by decide) (by decide) (by decide) (by decide)⟩

/-! ### Lattice points of a line (`Line::coordinates`) -/

theorem orientation_collinear_iff (a b c : Coord) :
    orientation a b c = Orientation.Collinear ↔
      (b.y - a.y) * (c.x - b.x) - (b.x - a.x) * (c.y - b.y) = 0 := by
  unfold orientation
  split_ifs with h1 h2
  · simp [h1]
  · simp [h1]
  · simp [h1]

/-- A step `s` taken `i` of `g` times stays between `0` and `s * g`. -/
theorem step_range (s i g : Int) (h0 : 0 ≤ i) (hig : i ≤ g) :
    min 0 (s * g) ≤ s * i ∧ s * i ≤ max 0 (s * g) := by
  rcases le_or_lt 0 s with hs | hs
  · have h1 : 0 ≤ s * i := mul_nonneg hs h0
    have h2 : s * i ≤ s * g := mul_le_mul_of_nonneg_left hig hs
    exact ⟨le_trans (min_le_left _ _) h1, le_trans h2 (le_max_right _ _)⟩
  · have h1 : s * i ≤ 0 := by nlinarith
    have h2 : s * g ≤ s * i := by nlinarith
    exact ⟨le_trans (min_le_right _ _) h2, le_trans h1 (le_max_left _ _)⟩

/-- Conversely, a multiple of `s` between `0` and `s * g` has its
multiplier between `0` and `g`. -/
theorem range_step (s t g : Int) (hs : s ≠ 0) (hg : 0 ≤ g)
    (h1 : min 0 (s * g) ≤ s * t) (h2 : s * t ≤ max 0 (s * g)) :
    0 ≤ t ∧ t ≤ g := by
  rcases lt_or_gt_of_ne hs with hneg | hpos
  · have hA : s * g ≤ 0 := by nlinarith
    rw [min_eq_right hA] at h1
    rw [max_eq_left hA] at h2
    constructor
    · nlinarith
    · nlinarith
  · have hA : 0 ≤ s * g := by nlinarith
    rw [min_eq_left hA] at h1
    rw [max_eq_right hA] at h2
    constructor
    · nlinarith
    · nlinarith

/-- Arithmetic core of `Line::coordinates`: walking from `(x0, y0)` in
`gcd` steps of the reduced displacement reaches exactly the integer
points that are collinear with the segment and inside its bounding
box. -/
theorem walk_mem_iff (x0 y0 x1 y1 px py : Int) (hnd : ¬(x1 = x0 ∧ y1 = y0)) :
    (∃ i : Nat, i < Int.gcd (x1 - x0) (y1 - y0) + 1 ∧
       (x1 - x0) / (Int.gcd (x1 - x0) (y1 - y0) : Int) * (i : Int) + x0 = px ∧
       (y1 - y0) / (Int.gcd (x1 - x0) (y1 - y0) : Int) * (i : Int) + y0 = py) ↔
    ((y1 - y0) * (px - x1) - (x1 - x0) * (py - y1) = 0 ∧
     min x0 x1 ≤ px ∧ px ≤ max x0 x1 ∧ min y0 y1 ≤ py ∧ py ≤ max y0 y1) := by
  have hg_pos : 0 < Int.gcd (x1 - x0) (y1 - y0) := by
    rw [Int.gcd_pos_iff]
    by_contra hc
    push_neg at hc
    exact hnd ⟨by omega, by omega⟩
  set gn : Nat := Int.gcd (x1 - x0) (y1 - y0) with hgn
  set g : Int := (gn : Int) with hgdef
  have hg0 : (0:Int) < g := by rw [hgdef]; exact_mod_cast hg_pos
  obtain ⟨s1, hs1⟩ : g ∣ (x1 - x0) := Int.gcd_dvd_left
  obtain ⟨s2, hs2⟩ : g ∣ (y1 - y0) := Int.gcd_dvd_right
  have hd1 : (x1 - x0) / g = s1 := by rw [hs1]; exact Int.mul_ediv_cancel_left _ hg0.ne'
  have hd2 : (y1 - y0) / g = s2 := by rw [hs2]; exact Int.mul_ediv_cancel_left _ hg0.ne'
  have hx1 : x1 = x0 + g * s1 := by linarith [hs1]
  have hy1 : y1 = y0 + g * s2 := by linarith [hs2]
  have hcop : Int.gcd s1 s2 = 1 := by
    have h := Int.gcd_div_gcd_div_gcd (i := x1 - x0) (j := y1 - y0) hg_pos
    rw [← hgn] at h
    rw [hd1, hd2] at h
    exact h
  constructor
  · rintro ⟨i, hilt, rfl, rfl⟩
    rw [hd1, hd2]
    have hi0 : (0:Int) ≤ (i:Int) := Int.natCast_nonneg i
    have hig : (i:Int) ≤ g := by
      have h2 : i ≤ gn := Nat.lt_succ_iff.mp hilt
      rw [hgdef]
      exact_mod_cast h2
    obtain ⟨hb1, hb2⟩ := step_range s1 (i:Int) g hi0 hig
    obtain ⟨hb3, hb4⟩ := step_range s2 (i:Int) g hi0 hig
    refine ⟨by rw [hx1, hy1]; ring, ?_, ?_, ?_, ?_⟩
    · rw [hx1, mul_comm g s1]
      generalize hA : s1 * (i:Int) = A at hb1 ⊢
      generalize hB : s1 * g = B at hb1 ⊢
      omega
    · rw [hx1, mul_comm g s1]
      generalize hA : s1 * (i:Int) = A at hb2 ⊢
      generalize hB : s1 * g = B at hb2 ⊢
      omega
    · rw [hy1, mul_comm g s2]
      generalize hA : s2 * (i:Int) = A at hb3 ⊢
      generalize hB : s2 * g = B at hb3 ⊢
      omega
    · rw [hy1, mul_comm g s2]
      generalize hA : s2 * (i:Int) = A at hb4 ⊢
      generalize hB : s2 * g = B at hb4 ⊢
      omega
  · rintro ⟨hcross, hbx1, hbx2, hby1, hby2⟩
    have key : s2 * (px - x0) = s1 * (py - y0) := by
      have h' : g * (s2 * (px - x0) - s1 * (py - y0)) = 0 := by
        rw [hx1, hy1] at hcross
        linear_combination hcross
      rcases mul_eq_zero.mp h' with h'' | h''
      · exact absurd h'' hg0.ne'
      · linarith
    obtain ⟨t, ht1, ht2⟩ : ∃ t : Int, px - x0 = s1 * t ∧ py - y0 = s2 * t := by
      by_cases hs1z : s1 = 0
      · have hs2abs : s2.natAbs = 1 := by
          have h := hcop
          rw [hs1z] at h
          simpa [Int.gcd] using h
        have hs2ne : s2 ≠ 0 := by
          intro h
          rw [h] at hs2abs
          simp at hs2abs
        have hu0 : px - x0 = 0 := by
          have h : s2 * (px - x0) = 0 := by rw [key, hs1z]; ring
          rcases mul_eq_zero.mp h with h | h
          · exact absurd h hs2ne
          · exact h
        have hsq : s2 * s2 = 1 := by
          rcases Int.natAbs_eq s2 with h | h
          · rw [h, hs2abs]; norm_num
          · rw [h, hs2abs]; norm_num
        refine ⟨s2 * (py - y0), by rw [hs1z, hu0]; ring, ?_⟩
        rw [← mul_assoc, hsq, one_mul]
      · have hdvd : s1 ∣ (px - x0) := by
          have h1 : s1 ∣ s2 * (px - x0) := ⟨py - y0, key⟩
          exact Int.dvd_of_dvd_mul_right_of_gcd_one h1 hcop
        obtain ⟨t, ht⟩ := hdvd
        refine ⟨t, ht, ?_⟩
        have h : s1 * (s2 * t) = s1 * (py - y0) := by rw [← key, ht]; ring
        exact (mul_left_cancel₀ hs1z h).symm
    have hpx : px = s1 * t + x0 := by linarith
    have hpy : py = s2 * t + y0 := by linarith
    have htb : 0 ≤ t ∧ t ≤ g := by
      by_cases hs1z : s1 = 0
      · have hs2ne : s2 ≠ 0 := by
          intro h
          exact hnd ⟨by rw [hx1, hs1z]; ring, by rw [hy1, h]; ring⟩
        apply range_step s2 t g hs2ne hg0.le
        · rw [hpy, hy1, mul_comm g s2] at hby1
          generalize hA : s2 * t = A at hby1 ⊢
          generalize hB : s2 * g = B at hby1 ⊢
          omega
        · rw [hpy, hy1, mul_comm g s2] at hby2
          generalize hA : s2 * t = A at hby2 ⊢
          generalize hB : s2 * g = B at hby2 ⊢
          omega
      · apply range_step s1 t g hs1z hg0.le
        · rw [hpx, hx1, mul_comm g s1] at hbx1
          generalize hA : s1 * t = A at hbx1 ⊢
          generalize hB : s1 * g = B at hbx1 ⊢
          omega
        · rw [hpx, hx1, mul_comm g s1] at hbx2
          generalize hA : s1 * t = A at hbx2 ⊢
          generalize hB : s1 * g = B at hbx2 ⊢
          omega
    refine ⟨t.toNat, ?_, ?_, ?_⟩
    · have h := htb.2
      rw [hgdef] at h
      omega
    · rw [hd1]
      have h : ((t.toNat : Int)) = t := Int.toNat_of_nonneg htb.1
      rw [h]
      linarith
    · rw [hd2]
      have h : ((t.toNat : Int)) = t := Int.toNat_of_nonneg htb.1
      rw [h]
      linarith

/-- `Line::coordinates` in closed form: a walk of `gcd + 1` points
(both endpoints included, ordered from `start`) whose step is the
displacement divided by the gcd of the component magnitudes. -/
theorem coordinates_eq_walk (l : Line) :
    l.coordinates =
      (List.range (Nat.gcd (l.endp.x - l.start.x).natAbs (l.endp.y - l.start.y).natAbs + 1)).map
        (fun i =>
          { x := (l.endp.x - l.start.x) /
                (Nat.gcd (l.endp.x - l.start.x).natAbs (l.endp.y - l.start.y).natAbs : Int) *
                (i : Int) + l.start.x
            y := (l.endp.y - l.start.y) /
                (Nat.gcd (l.endp.x - l.start.x).natAbs (l.endp.y - l.start.y).natAbs : Int) *
                (i : Int) + l.start.y }) := by
  by_cases hd : l.endp = l.start
  · simp only [Line.coordinates, if_pos hd, hd]
    simp
  · simp only [Line.coordinates, if_neg hd]
    rw [List.range_succ_eq_map, List.map_cons, List.map_map]
    congr 1
    simp

/-- `Line::coordinates` enumerates exactly the lattice points the
segment passes through. -/
theorem mem_coordinates_iff (l : Line) (p : Coord) :
    p ∈ l.coordinates ↔ latticePointOn p l := by
  by_cases hd : l.endp = l.start
  · simp only [Line.coordinates, if_pos hd, List.mem_singleton]
    unfold latticePointOn
    rw [hd]
    constructor
    · rintro rfl
      refine ⟨by unfold orientation; rw [if_pos (by ring)], by simp, by simp, by simp, by simp⟩
    · rintro ⟨-, h1, h2, h3, h4⟩
      apply Coord.ext <;> omega
  · have hnd : ¬(l.endp.x = l.start.x ∧ l.endp.y = l.start.y) := by
      intro hc
      exact hd (Coord.ext hc.1 hc.2)
    rw [coordinates_eq_walk]
    simp only [List.mem_map, List.mem_range]
    unfold latticePointOn
    rw [orientation_collinear_iff]
    constructor
    · rintro ⟨i, hi, rfl⟩
      exact (walk_mem_iff l.start.x l.start.y l.endp.x l.endp.y _ _ hnd).mp ⟨i, hi, rfl, rfl⟩
    · intro hseg
      obtain ⟨i, hi, h1, h2⟩ :=
        (walk_mem_iff l.start.x l.start.y l.endp.x l.endp.y p.x p.y hnd).mpr hseg
      exact ⟨i, hi, Coord.ext h1 h2⟩

/-- C7: `Line::coordinates()` returns `[start]` for a degenerate line;
in general it is the walk from `start` in steps of the displacement
divided by the gcd of the component magnitudes, inclusive of both
endpoints and ordered from start to end; it contains exactly the
lattice points the segment passes through; `(0,0)->(4,2)` gives
`[(0,0),(2,1),(4,2)]`. -/
theorem coordinates_spec :
    (∀ l : Line, l.start = l.endp → l.coordinates = [l.start]) ∧
    (∀ l : Line, l.coordinates =
      (List.range (Nat.gcd (l.endp.x - l.start.x).natAbs (l.endp.y - l.start.y).natAbs + 1)).map
        (fun i =>
          { x := (l.endp.x - l.start.x) /
                (Nat.gcd (l.endp.x - l.start.x).natAbs (l.endp.y - l.start.y).natAbs : Int) *
                (i : Int) + l.start.x
            y := (l.endp.y - l.start.y) /
                (Nat.gcd (l.endp.x - l.start.x).natAbs (l.endp.y - l.start.y).natAbs : Int) *
                (i : Int) + l.start.y })) ∧
    (∀ (l : Line) (p : Coord), p ∈ l.coordinates ↔ latticePointOn p l) ∧
    Line.coordinates (Line.mk ⟨0, 0⟩ ⟨4, 2⟩) = [⟨0, 0⟩, ⟨2, 1⟩, ⟨4, 2⟩] ∧
    Line.coordinates (Line.mk ⟨3, 3⟩ ⟨3, 3⟩) = [⟨3, 3⟩] :=
  ⟨fun l h => by unfold Line.coordinates; rw [if_pos h.symm],
   coordinates_eq_walk, mem_coordinates_iff, by decide, by decide⟩

/-- C7 witness: the degenerate case at `(7,7)` and the membership
characterization at `(2,1)` on the line `(0,0)->(4,2)`. -/
theorem coordinates_spec_witness :
    Line.coordinates (Line.mk ⟨7, 7⟩ ⟨7, 7⟩) = [⟨7, 7⟩] ∧
    ((⟨2, 1⟩ : Coord) ∈ Line.coordinates (Line.mk ⟨0, 0⟩ ⟨4, 2⟩) ↔
      latticePointOn ⟨2, 1⟩ (Line.mk ⟨0, 0⟩ ⟨4, 2⟩)) :=
  ⟨coordinates_spec.1 _ rfl, coordinates_spec.2.2.1 _ _⟩

/-- C9: `Puzzle::input` preserves the cursor invariant; moreover when
the resulting line list is empty the cursor is unchanged. -/
theorem cursor_invariant_preserved (p : Puzzle) (c : Coord) (h : cursorInv p) :
    cursorInv (p.input c).1 ∧
    ((p.input c).1.lines = [] → (p.input c).1.cursor = p.cursor) := by
  cases hres : (p.input c).2
  · rw [input_unchanged_of_false p c hres]
    exact ⟨h, fun _ => rfl⟩
  · obtain ⟨-, r, hr, -, -⟩ := (input_characterization p c).1.mp hres
    have heq := (input_characterization p c).2 r hr hres
    rw [heq]
    constructor
    · intro l hl
      simp only [List.getLast?_concat] at hl
      cases hl
      rfl
    · intro hemp
      exact absurd hemp (by simp)

/-- C9 witness: the invariant holds after the successful Octogon
redirect move on `octoRedirectPuzzle` (whose cursor sits on the end of
its only line). -/
theorem cursor_invariant_preserved_witness :
    cursorInv (octoRedirectPuzzle.input ⟨2, 0⟩).1 :=
  (cursor_invariant_preserved octoRedirectPuzzle ⟨2, 0⟩
    (fun l hl => by cases hl; rfl)).1

/-- C10: if every line is non-degenerate (`start ≠ end`) then it stays
so after any `Puzzle::input`: the appended candidate cannot be
degenerate (`coordinate == cursor` is rejected) and the Octogon
redirect cannot produce one (the reversing move is rejected by the
intersection check first). -/
theorem lines_nondegenerate_preserved (p : Puzzle) (c : Coord)
    (h : ∀ l ∈ p.lines, l.start ≠ l.endp) :
    ∀ l ∈ (p.input c).1.lines, l.start ≠ l.endp := by
  cases hres : (p.input c).2
  · rw [input_unchanged_of_false p c hres]
    exact h
  · obtain ⟨hcc, r, hr, hd, -⟩ := (input_characterization p c).1.mp hres
    have heq := (input_characterization p c).2 r hr hres
    rw [heq]
    intro l hl
    simp only [List.mem_append, List.mem_singleton] at hl
    rcases hl with hl | hl
    · by_cases hoct : r.orb = Orb.Octogon
      · rw [Orb.effect, if_neg (by simp [hoct])] at hl
        simp only [List.mem_map] at hl
        obtain ⟨l0, hl0, hmap⟩ := hl
        by_cases hend : l0.endp = p.cursor
        · rw [if_pos hend] at hmap
          subst hmap
          simp only [ne_eq]
          intro hstart
          have hint : p.intersects_lines { start := p.cursor, endp := c } = false := by
            rcases hd with hd | hd
            · simp [Orb.allow_intersections, hoct] at hd
            · exact hd
          have hl0eq : l0 = { start := c, endp := p.cursor } := by
            cases l0
            simp only at hstart hend
            simp [hstart, hend]
          have hrev : l0.intersects { start := p.cursor, endp := c } = true := by
            rw [hl0eq]
            exact intersects_reverse c p.cursor hcc
          have : p.intersects_lines { start := p.cursor, endp := c } = true := by
            unfold Puzzle.intersects_lines
            exact List.any_eq_true.mpr ⟨l0, hl0, hrev⟩
          rw [this] at hint
          exact absurd hint (by simp)
        · rw [if_neg hend] at hmap
          subst hmap
          exact h l0 hl0
      · rw [Orb.effect, if_pos (by simp [hoct])] at hl
        exact h l hl
    · subst hl
      exact fun he => hcc he.symm

/-- C10 witness: the line `(0,0)->(2,0)` produced by the Octogon
redirect of the successful move on `octoRedirectPuzzle` (whose initial
line is non-degenerate) is itself non-degenerate. -/
theorem lines_nondegenerate_preserved_witness :
    (Line.mk ⟨0, 0⟩ ⟨2, 0⟩).start ≠ (Line.mk ⟨0, 0⟩ ⟨2, 0⟩).endp :=
  lines_nondegenerate_preserved octoRedirectPuzzle ⟨2, 0⟩ (by decide)
    (Line.mk ⟨0, 0⟩ ⟨2, 0⟩) (by decide)

end Magibreak
